import Mathlib

set_option maxHeartbeats 1000000

namespace MechViz

/-
Shallow embedding of the repository MI-1222/mechExperiment_visualization.

The embedded code is:
  * src/lib/open_piv/piv_analysis.py : analyze_and_save_frames (the two-pass
    PIV pipeline), together with the module __main__ runner;
  * src/utils/create_video.py : create_video_from_images;
  * src/main.py : the piv-analysis stage of main (section 5 of the script).

External collaborators (OpenCV decoding, the OpenPIV estimator and filters,
matplotlib drawing) are modelled as opaque inputs: a frame is an arbitrary
value of a type parameter F, and the whole chain
extended_search_area_piv / sig2noise_val / global_std / replace_outliers is a
function parameter piv : F → F → List PF × List PF giving the filtered
per-cell u and v grids of one analyzed pair (flattened to lists).

numpy float64 values are modelled by the type PF below: an exact rational for
the finite case (rounding and overflow of finite arithmetic are idealised
away) plus NaN and the two infinities, with the IEEE propagation rules that
numpy implements for the operations the repository uses.
-/

/-- Model of a numpy float64: a finite value (idealised as an exact rational),
NaN, positive infinity or negative infinity. -/
inductive PF where
  | fin (q : ℚ)
  | nan
  | inf
  | ninf
deriving DecidableEq

def PF.isNaN : PF → Bool
  | .nan => true
  | _ => false

def PF.isFinite : PF → Bool
  | .fin _ => true
  | _ => false

/-- IEEE addition as numpy performs it: NaN is absorbing, inf + (-inf) is NaN,
an infinity absorbs any finite value, finite addition is exact. -/
def pfAdd : PF → PF → PF
  | .nan, _ => .nan
  | _, .nan => .nan
  | .inf, .ninf => .nan
  | .ninf, .inf => .nan
  | .inf, _ => .inf
  | _, .inf => .inf
  | .ninf, _ => .ninf
  | _, .ninf => .ninf
  | .fin a, .fin b => .fin (a + b)

/-- Division of a float by a positive integer count (the divisor in np.nanmean
and in the even branch of np.nanmedian is always a count of at least 1). -/
def pfDivNat (x : PF) (n : Nat) : PF :=
  match x with
  | .fin q => .fin (q / (n : ℚ))
  | .nan => .nan
  | .inf => .inf
  | .ninf => .ninf

/-- Elementwise division by the scaling factor, as openpiv scaling.uniform
performs it (x / scaling_factor and so on), with the numpy conventions for a
zero divisor: a nonzero finite value divided by zero gives a signed infinity,
0/0 gives NaN, and an infinity divided by zero keeps its sign. -/
def pfScale (factor : ℚ) : PF → PF
  | .fin a =>
    if factor = 0 then (if a = 0 then .nan else if 0 < a then .inf else .ninf)
    else .fin (a / factor)
  | .nan => .nan
  | .inf => if factor = 0 then .inf else if 0 < factor then .inf else .ninf
  | .ninf => if factor = 0 then .ninf else if 0 < factor then .ninf else .inf

/-- The ordering numpy sorting uses on the values that can appear inside
np.nanmedian after NaNs have been dropped; NaN itself is placed last, matching
the numpy sort convention. -/
def pfLe : PF → PF → Bool
  | _, .nan => true
  | .nan, _ => false
  | .ninf, _ => true
  | _, .ninf => false
  | _, .inf => true
  | .inf, _ => false
  | .fin a, .fin b => decide (a ≤ b)

def pfInsertSorted (x : PF) : List PF → List PF
  | [] => [x]
  | y :: ys => if pfLe x y then x :: y :: ys else y :: pfInsertSorted x ys

/-- Ascending stable sort of cell values, as np.sort / np.nanmedian order
them. -/
def pfSort : List PF → List PF
  | [] => []
  | x :: xs => pfInsertSorted x (pfSort xs)

def nanSum (l : List PF) : PF := l.foldl pfAdd (PF.fin 0)

/-- np.nanmean along the window axis for one cell: NaNs are dropped, the mean
of the remaining values is taken, and an all-NaN slice yields NaN. -/
def nanmean (l : List PF) : PF :=
  let fs := l.filter (fun x => !x.isNaN)
  if fs.isEmpty then PF.nan else pfDivNat (nanSum fs) fs.length

/-- np.nanmedian along the window axis for one cell: NaNs are dropped, the
remaining values are sorted, the middle value is taken when their count is
odd and the mean of the two middle values when it is even; an all-NaN slice
yields NaN. -/
def nanmedian (l : List PF) : PF :=
  let fs := l.filter (fun x => !x.isNaN)
  if fs.isEmpty then PF.nan
  else
    let srt := pfSort fs
    if fs.length % 2 = 1 then srt.getD (fs.length / 2) PF.nan
    else pfDivNat (pfAdd (srt.getD (fs.length / 2 - 1) PF.nan) (srt.getD (fs.length / 2) PF.nan)) 2

/-- One cell of the pass-2 aggregation (piv_analysis.py lines 164-169): the
method string selects np.nanmedian, anything else falls to np.nanmean. -/
def aggCell (method : String) (cell : List PF) : PF :=
  if method = "median" then nanmedian cell else nanmean cell

/-- np.stack(arrays) viewed cellwise: cell j of the stack is the list of the
values the stacked arrays hold at position j.  np.stack requires all arrays
to share one shape; the shape of the first array gives the cell count, as the
reduced output of numpy keeps the shape of one stacked array. -/
def stackCells (arrays : List (List PF)) : List (List PF) :=
  match arrays with
  | [] => []
  | a0 :: _ => (List.range a0.length).map (fun j => arrays.map (fun a => a.getD j PF.nan))

/-- The aggregated component grid of one window (piv_analysis.py lines
164-169): each cell is reduced independently along the window axis. -/
def aggField (method : String) (arrays : List (List PF)) : List PF :=
  (stackCells arrays).map (aggCell method)

/-- Spec-side definition, written from the words of the claim: the middle
value of the w values of one cell, that is the element in the middle position
of the cell values arranged in ascending order. -/
def middleOfCell (cell : List PF) : PF :=
  (pfSort cell).getD (cell.length / 2) PF.nan

/-
Magnitudes.  The code computes magnitude = np.sqrt(u ** 2 + v ** 2) on the
scaled grids.  The square root of an exact rational is in general irrational,
so a magnitude is represented here BY ITS SQUARE: the value MagSq.fin s
stands for the magnitude sqrt s with s ≥ 0.  On the domain of magnitudes
(NaN, +inf, and nonnegative finite values) the map m ↦ m ^ 2 is a strictly
monotone bijection, so every comparison, maximum and zero-test of magnitudes
is represented faithfully; -inf cannot arise, because a sum of IEEE squares
is NaN, +inf or a nonnegative finite value.
-/

/-- A magnitude value, represented by its square: MagSq.fin s stands for the
magnitude sqrt s; NaN and +inf represent themselves.  -inf is not a possible
magnitude, so the type has no constructor for it. -/
inductive MagSq where
  | fin (q : ℚ)
  | nan
  | inf
deriving DecidableEq

/-- The square of np.sqrt(u ^ 2 + v ^ 2) for one cell of the scaled field,
with the IEEE rules: NaN in either component gives NaN, otherwise an
infinite component gives an infinite magnitude, otherwise the exact finite
sum of squares. -/
def magSq : PF → PF → MagSq
  | .nan, _ => .nan
  | _, .nan => .nan
  | .inf, _ => .inf
  | .ninf, _ => .inf
  | _, .inf => .inf
  | _, .ninf => .inf
  | .fin a, .fin b => .fin (a ^ 2 + b ^ 2)

/-- The largest finite float64, 1.7976931348623157e308: the value
np.nan_to_num substitutes for +inf. -/
def MAXFLOAT : ℚ := 17976931348623157 * 10 ^ 292

/-- np.nan_to_num applied to a magnitude, in the squared representation:
NaN becomes 0 (squared: 0) and +inf becomes MAXFLOAT (squared:
MAXFLOAT ^ 2); finite magnitudes pass through.  The result is always
finite, so it is returned as a plain rational. -/
def nanToNumMagSq : MagSq → ℚ
  | .nan => 0
  | .inf => MAXFLOAT ^ 2
  | .fin q => q

/-- np.nan_to_num applied to a component grid value (pass 2, lines 179-180):
NaN becomes 0 and the infinities become the extreme finite floats. -/
def pfNanToNum : PF → ℚ
  | .nan => 0
  | .inf => MAXFLOAT
  | .ninf => -MAXFLOAT
  | .fin q => q

/-- The rendered (squared) magnitude of one cell: scale both components by
the scaling factor, take the magnitude, then np.nan_to_num - exactly the
chain of piv_analysis.py lines 121-123 and 171-178. -/
def renderMagSqCell (factor : ℚ) (a b : PF) : ℚ :=
  nanToNumMagSq (magSq (pfScale factor a) (pfScale factor b))

/-- Pass-1 per-pair value current_max_mag (squared): np.nanmax of the
np.nan_to_num-ed magnitude array of the scaled filtered field.  All entries
are nonnegative, so for a nonempty field the fold below with initial value 0
equals np.nanmax (np.nanmax of an empty array raises in numpy and does not
arise: the PIV grid of a decodable video frame is nonempty). -/
def pairMaxMagSq (factor : ℚ) (u v : List PF) : ℚ :=
  (List.zipWith (fun a b => renderMagSqCell factor a b) u v).foldl max 0

/-- The pass-1 running maximum overall_max_mag (squared) over a list of
per-pair (u, v) filtered fields, with the update of lines 124-125:
if current_max_mag > overall_max_mag then replace it. -/
def pass1MaxSq (factor : ℚ) (fields : List (List PF × List PF)) : ℚ :=
  fields.foldl
    (fun acc f =>
      let cm := pairMaxMagSq factor f.1 f.2
      if acc < cm then cm else acc) 0

/-- Spec-side definition, written from the words of the claim: the maximum
finite scaled magnitude (squared) of one field, where every non-finite
magnitude - NaN or infinite - is treated as zero. -/
def specPairMaxSq (factor : ℚ) (u v : List PF) : ℚ :=
  (List.zipWith
    (fun a b =>
      match magSq (pfScale factor a) (pfScale factor b) with
      | .fin q => q
      | _ => 0) u v).foldl max 0

/-- Spec-side definition: the maximum over all pairs of the maximum finite
scaled magnitude (squared) of the field of that pair, non-finite magnitudes
treated as zero. -/
def specOverallMaxSq (factor : ℚ) (fields : List (List PF × List PF)) : ℚ :=
  (fields.map (fun f => specPairMaxSq factor f.1 f.2)).foldl max 0

/-
Filenames.  The code names each output image f-string style as
img followed by the frame number formatted with the spec 003d (zero fill to
a minimum width of 3) followed by .png, and the video assembler processes
the image files in the order produced by sorted(), the Python string order:
lexicographic comparison of the code-point sequences.
-/

/-- The decimal digit characters, as Python int formatting produces them
(every argument in this development is a digit, 0 to 9). -/
def digitChar : Nat → Char
  | 0 => '0'
  | 1 => '1'
  | 2 => '2'
  | 3 => '3'
  | 4 => '4'
  | 5 => '5'
  | 6 => '6'
  | 7 => '7'
  | 8 => '8'
  | _ => '9'

/-- Fuelled decimal conversion: pushes the low digit and recurses on the
quotient; the fuel n + 1 used by decChars always suffices. -/
def decCharsAux : Nat → Nat → List Char → List Char
  | 0, _, acc => acc
  | fuel + 1, n, acc =>
    if n < 10 then digitChar n :: acc
    else decCharsAux fuel (n / 10) (digitChar (n % 10) :: acc)

/-- The decimal digit string of a natural number, most significant digit
first, as Python str() of a nonnegative int produces it. -/
def decChars (n : Nat) : List Char := decCharsAux (n + 1) n []

/-- Python format spec 003d applied to a nonnegative int: the decimal
digits, left-filled with the character 0 to a minimum width of 3. -/
def format03d (n : Nat) : List Char :=
  let ds := decChars n
  List.replicate (3 - ds.length) '0' ++ ds

/-- The output image filename of piv_analysis.py line 207. -/
def imgFilename (n : Nat) : List Char :=
  String.toList "img" ++ format03d n ++ String.toList ".png"

/-- Python string comparison s < t: lexicographic on code points, a strict
prefix is smaller. -/
def pyStrLt : List Char → List Char → Bool
  | [], [] => false
  | [], _ :: _ => true
  | _ :: _, [] => false
  | a :: as, b :: bs =>
    if a.toNat < b.toNat then true
    else if b.toNat < a.toNat then false
    else pyStrLt as bs

def pyStrLe (s t : List Char) : Bool := !pyStrLt t s

def pyInsertSorted (x : List Char) : List (List Char) → List (List Char)
  | [] => [x]
  | y :: ys => if pyStrLe x y then x :: y :: ys else y :: pyInsertSorted x ys

/-- Python sorted() on a list of strings: the stable ascending arrangement
under the string order (realised here as an insertion sort, which is stable
and ascending). -/
def pySort : List (List Char) → List (List Char)
  | [] => []
  | x :: xs => pyInsertSorted x (pySort xs)

/-
The two-pass pipeline of analyze_and_save_frames.
-/

/-- One entry of frames_data (piv_analysis.py lines 115-119): the filtered
u and v grids in original units, the colour background frame, and the
1-based pair index. -/
structure FrameResult (F : Type) where
  u : List PF
  v : List PF
  bg : F
  frame_index : Nat
deriving DecidableEq

/-- One rendered output image of pass 2: the base frame index that labels
and names it, its filename, the background drawn, and the np.nan_to_num-ed
scaled component grids and (squared) magnitude grid handed to the drawing
call. -/
structure RenderedImage (F : Type) where
  frameNum : Nat
  filename : List Char
  bg : F
  uNonan : List ℚ
  vNonan : List ℚ
  magNonanSq : List ℚ
deriving DecidableEq

/-- The messages the two scripts print on their non-happy paths. -/
inductive Msg where
  | couldNotOpenVideo
  | notEnoughFrames
  | noFramesAnalyzed
  | noMatchingImages
  | firstImageUnreadable
  | decodeSkipWarning
deriving DecidableEq

/-- Everything observable about one call of analyze_and_save_frames: the
collected pass-1 results, the pass-1 running maximum (squared), the vmax
actually used for rendering (squared), the rendered images, the error
messages printed, and whether cap.release() was called.  The Python function
itself always returns None; it never raises on the modelled domain. -/
structure AnalyzeOutcome (F : Type) where
  pairs : List (FrameResult F)
  overallMaxMagSq : ℚ
  vmaxUsedSq : ℚ
  images : List (RenderedImage F)
  printed : List Msg
  capReleased : Bool

def fr0 {F : Type} [Inhabited F] : FrameResult F := ⟨[], [], default, 0⟩

def im0 {F : Type} [Inhabited F] : RenderedImage F := ⟨0, [], default, [], [], []⟩

/-- The pass-1 loop (lines 86-131), entered with the initial buffer of the
first s + 1 frames and the remaining undecoded frames: analyze the pair
(buffer[0], buffer[s]) under the next 1-based index, then drop buffer[0],
read one frame, append it and continue; stop after the pair whose following
read fails.  The external estimation-and-filtering chain is the function
parameter piv. -/
def pass1Pairs {F : Type} [Inhabited F] (s : Nat) (piv : F → F → List PF × List PF) :
    List F → List F → Nat → List (FrameResult F)
  | buffer, [], idx =>
    let a := buffer.getD 0 default
    let b := buffer.getD s default
    [⟨(piv a b).1, (piv a b).2, a, idx + 1⟩]
  | buffer, f :: rest, idx =>
    let a := buffer.getD 0 default
    let b := buffer.getD s default
    ⟨(piv a b).1, (piv a b).2, a, idx + 1⟩ :: pass1Pairs s piv (buffer.drop 1 ++ [f]) rest (idx + 1)

/-- Pass 2 (lines 141-209): num_images_to_save = len(frames_data) - w + 1 as
a Python int (so a nonpositive count yields an empty range); window i covers
frames_data[i : i + w]; the base result is window_data[0]; the window u and v
stacks are aggregated by the configured method, scaled, and handed with
their np.nan_to_num-ed values and magnitudes to the plot saved under the
imgFilename of the base frame index. -/
def pass2 {F : Type} [Inhabited F] (factor : ℚ) (w : Nat) (method : String)
    (pairs : List (FrameResult F)) : List (RenderedImage F) :=
  let num : Int := (pairs.length : Int) - (w : Int) + 1
  (List.range num.toNat).map (fun i =>
    let window := (pairs.drop i).take w
    let base := window.headD fr0
    let aggU := aggField method (window.map (fun p => p.u))
    let aggV := aggField method (window.map (fun p => p.v))
    let su := aggU.map (pfScale factor)
    let sv := aggV.map (pfScale factor)
    { frameNum := base.frame_index
      filename := imgFilename base.frame_index
      bg := base.bg
      uNonan := su.map pfNanToNum
      vNonan := sv.map pfNanToNum
      magNonanSq := List.zipWith (fun a b => nanToNumMagSq (magSq a b)) su sv })

/-- analyze_and_save_frames.  opened models cap.isOpened(); frames is the
sequence of decodable frames of the video; the open-failure path returns
without touching cap.release(), the insufficient-frames path (lines 78-81)
releases and returns after printing, and the normal path releases after the
pass-1 loop.  The running maximum is computed by pass1MaxSq over the pair
fields in analysis order - the same values the interleaved loop of the
source folds pair by pair.  A vmax override replaces the pass-1 value for
rendering only (lines 143-146); it is recorded squared, consistent with the
squared magnitude representation. -/
def analyzeModel {F : Type} [Inhabited F] (opened : Bool) (frames : List F)
    (s w : Nat) (method : String) (factor : ℚ) (vmaxOv : Option ℚ)
    (piv : F → F → List PF × List PF) : AnalyzeOutcome F :=
  if opened then
    let buffer := frames.take (s + 1)
    let rest := frames.drop (s + 1)
    if buffer.length ≤ s then
      ⟨[], 0, 0, [], [Msg.notEnoughFrames], true⟩
    else
      let pairs := pass1Pairs s piv buffer rest 0
      let overall := pass1MaxSq factor (pairs.map fun p => (p.u, p.v))
      if pairs.isEmpty then
        ⟨pairs, overall, overall, [], [Msg.noFramesAnalyzed], true⟩
      else
        let vm := match vmaxOv with
          | some m => m ^ 2
          | none => overall
        ⟨pairs, overall, vm, pass2 factor w method pairs, [], true⟩
  else ⟨[], 0, 0, [], [Msg.couldNotOpenVideo], false⟩

/-- The __main__ runner of piv_analysis.py (lines 257-265) after its
configuration checks: it calls analyze_and_save_frames with the configured
arguments and then falls off the end of the script, so the process always
terminates with exit status 0 - the function returns None on every path of
the modelled domain and nothing after the call can raise. -/
def pivScriptRun {F : Type} [Inhabited F] (opened : Bool) (frames : List F)
    (s w : Nat) (method : String) (factor : ℚ) (vmaxOv : Option ℚ)
    (piv : F → F → List PF × List PF) : AnalyzeOutcome F × Nat :=
  (analyzeModel opened frames s w method factor vmaxOv piv, 0)

/-
create_video_from_images (src/utils/create_video.py).  The filesystem is
modelled by the list of filenames the glob pattern matched and a decode map
(cv2.imread): some image for a readable file, none for an unreadable one.
-/

/-- Everything observable about one call of create_video_from_images: the
frames written to the encoder in order, whether a writer (and so an output
file) was created, the count of per-item skip warnings, the error printed,
and whether video.release() ran. -/
structure VideoOutcome (Img : Type) where
  written : List Img
  created : Bool
  warnings : Nat
  errMsg : Option Msg
  released : Bool

/-- The write loop of create_video.py lines 48-55: each file is read; a
readable frame is written, an unreadable one prints a warning and is
skipped; the loop never aborts.  Returns the written frames in order and
the warning count. -/
def writeLoop {Img : Type} (decode : List Char → Option Img) :
    List (List Char) → List Img × Nat
  | [] => ([], 0)
  | f :: fs =>
    let r := writeLoop decode fs
    match decode f with
    | some img => (img :: r.1, r.2)
    | none => (r.1, r.2 + 1)

/-- create_video_from_images: sort the matched files; report and return with
no writer when nothing matched (lines 23-25); read the first sorted file to
take the frame size, reporting and returning with no writer when it is
unreadable (lines 29-35); otherwise create the writer, run the write loop
over every matched file in sorted order, and release the writer (lines
45-56). -/
def createVideoModel {Img : Type} (matched : List (List Char))
    (decode : List Char → Option Img) : VideoOutcome Img :=
  let files := pySort matched
  match files with
  | [] => ⟨[], false, 0, some Msg.noMatchingImages, false⟩
  | f0 :: _ =>
    match decode f0 with
    | none => ⟨[], false, 0, some Msg.firstImageUnreadable, false⟩
    | some _ =>
      let r := writeLoop decode files
      ⟨r.1, true, r.2, none, true⟩

/-
The piv-analysis stage of src/main.py (section 5, lines 90-118).
-/

/-- The parameters the def line of analyze_and_save_frames declares
(piv_analysis.py line 27). -/
def analyzeSignatureParams : List String :=
  ["video_path", "output_dir", "scaling_factor", "vmax_override",
   "frame_comparison_step", "moving_average_window", "averaging_method"]

/-- The keywords the call in main.py lines 101-110 passes; every argument is
passed by keyword. -/
def mainPivCallKwargs : List String :=
  ["video_path", "output_dir", "scaling_factor", "vmax_override",
   "frame_comparison_step", "moving_average_window", "averaging_method",
   "piv_params"]

/-- Python keyword binding for a call that passes every argument by keyword
and supplies all seven parameters of the signature: the call binds iff no
keyword falls outside the parameter list, and raises TypeError otherwise. -/
def kwargsBind (params kwargs : List String) : Bool :=
  kwargs.all (fun k => params.contains k)

/-- The slice of the configuration main.py consults before the call: the
piv_analysis execution flag, and the key set of the piv_analysis parameter
block (none when the block itself is missing). -/
structure ExecConfig where
  pivEnabled : Bool
  pivBlockKeys : Option (List String)

/-- What the piv stage of main leaves behind: the exit status when a handler
called sys.exit, and how many frame pairs were analyzed. -/
structure StageOutcome where
  exitCode : Option Nat
  pairsAnalyzed : Nat
deriving DecidableEq

/-- Section 5 of main: when the flag is on, look up the piv_analysis block
(KeyError exits 1), look up video_path and output_dir (KeyError exits 1),
then invoke analyze_and_save_frames with the kwargs of mainPivCallKwargs; a
binding failure raises TypeError, which the generic handler catches before
exiting 1, so no pair is analyzed.  The count a successful call would
produce is the parameter pairsIfCallSucceeds. -/
def mainPivStage (cfg : ExecConfig) (pairsIfCallSucceeds : Nat) : StageOutcome :=
  if cfg.pivEnabled then
    match cfg.pivBlockKeys with
    | none => ⟨some 1, 0⟩
    | some keys =>
      if keys.contains "video_path" then
        if keys.contains "output_dir" then
          if kwargsBind analyzeSignatureParams mainPivCallKwargs then
            ⟨none, pairsIfCallSucceeds⟩
          else ⟨some 1, 0⟩
        else ⟨some 1, 0⟩
      else ⟨some 1, 0⟩
  else ⟨none, 0⟩

/-
Theorems.
-/

/-- C1.  For every configuration whose execution flags enable piv_analysis
(and which reaches the call, that is whose piv_analysis block and its
video_path and output_dir keys are present), the call in main passes the
keyword piv_params, which the signature of analyze_and_save_frames does not
accept; keyword binding therefore fails (TypeError), the generic handler
catches it, and the stage exits with status 1 with zero pairs analyzed,
whatever a successful call would have produced. -/
theorem c1_main_piv_call_raises_typeerror (cfg : ExecConfig) (n : Nat)
    (keys : List String) (hEn : cfg.pivEnabled = true)
    (hBlk : cfg.pivBlockKeys = some keys)
    (hvp : keys.contains "video_path" = true)
    (hod : keys.contains "output_dir" = true) :
    ("piv_params" ∈ mainPivCallKwargs ∧ "piv_params" ∉ analyzeSignatureParams) ∧
    kwargsBind analyzeSignatureParams mainPivCallKwargs = false ∧
    mainPivStage cfg n = ⟨some 1, 0⟩ := by
  refine ⟨⟨by decide, by decide⟩, by decide, ?_⟩
  simp only [mainPivStage, hEn, if_true, hBlk, hvp, hod,
    show kwargsBind analyzeSignatureParams mainPivCallKwargs = false from by decide]
  simp

theorem c1_witness :
    mainPivStage ⟨true, some ["video_path", "output_dir"]⟩ 5 = ⟨some 1, 0⟩ :=
  (c1_main_piv_call_raises_typeerror ⟨true, some ["video_path", "output_dir"]⟩ 5
    ["video_path", "output_dir"] rfl rfl (by decide) (by decide)).2.2

lemma nanmean_singleton (x : PF) : nanmean [x] = x := by
  cases x <;> simp [nanmean, nanSum, pfAdd, pfDivNat, PF.isNaN, List.filter]

lemma nanmedian_singleton (x : PF) : nanmedian [x] = x := by
  cases x <;> simp [nanmedian, pfSort, pfInsertSorted, PF.isNaN, List.filter, List.getD]

lemma aggCell_singleton (method : String) (x : PF) : aggCell method [x] = x := by
  unfold aggCell
  by_cases h : method = "median" <;> simp [h, nanmean_singleton, nanmedian_singleton]

lemma range_map_getD (f : List PF) :
    (List.range f.length).map (fun j => f.getD j PF.nan) = f := by
  apply List.ext_getElem (by simp)
  intro n h1 h2
  simp only [List.getElem_map, List.getElem_range]
  exact List.getD_eq_getElem f PF.nan h2

lemma aggField_singleton (method : String) (u : List PF) : aggField method [u] = u := by
  unfold aggField stackCells
  rw [List.map_map]
  have : (aggCell method ∘ fun j => [u].map (fun a => a.getD j PF.nan)) =
      (fun j => u.getD j PF.nan) := by
    funext j
    exact aggCell_singleton method (u.getD j PF.nan)
  rw [this, range_map_getD]

lemma nanSum_fold_replicate_fin (w : Nat) (q : ℚ) : ∀ (a : ℚ),
    List.foldl pfAdd (PF.fin a) (List.replicate w (PF.fin q)) = PF.fin (a + w * q) := by
  induction w with
  | zero => intro a; simp
  | succ w ih =>
    intro a
    rw [List.replicate_succ, List.foldl_cons]
    show List.foldl pfAdd (PF.fin (a + q)) _ = _
    rw [ih (a + q)]
    congr 1
    push_cast
    ring

lemma nanmean_replicate_fin (w : Nat) (hw : 1 ≤ w) (q : ℚ) :
    nanmean (List.replicate w (PF.fin q)) = PF.fin q := by
  unfold nanmean
  rw [List.filter_replicate]
  simp only [PF.isNaN, Bool.not_false, if_true]
  have hne : (List.replicate w (PF.fin q)).isEmpty = false := by
    cases w
    · omega
    · simp [List.replicate_succ]
  rw [hne]
  simp only [Bool.false_eq_true, if_false]
  unfold nanSum
  rw [nanSum_fold_replicate_fin w q 0]
  simp only [pfDivNat, List.length_replicate, zero_add]
  congr 1
  rw [mul_div_cancel_left₀]
  exact_mod_cast (by omega : w ≠ 0)

lemma stackCells_replicate (w : Nat) (hw : 1 ≤ w) (f : List PF) :
    stackCells (List.replicate w f) =
      (List.range f.length).map (fun j => List.replicate w (f.getD j PF.nan)) := by
  obtain ⟨v, rfl⟩ : ∃ v, w = v + 1 := ⟨w - 1, by omega⟩
  rw [List.replicate_succ]
  rw [show stackCells (f :: List.replicate v f) =
      (List.range f.length).map
        (fun j => (f :: List.replicate v f).map (fun a => a.getD j PF.nan)) from rfl]
  apply List.map_congr_left
  intro j hj
  rw [← List.replicate_succ, List.map_replicate]

lemma aggField_mean_replicate (w : Nat) (hw : 1 ≤ w) (f : List PF)
    (hf : ∀ x ∈ f, x.isFinite = true) :
    aggField "mean" (List.replicate w f) = f := by
  unfold aggField
  rw [stackCells_replicate w hw f, List.map_map]
  apply List.ext_getElem (by simp)
  intro n h1 h2
  simp only [List.getElem_map, List.getElem_range, Function.comp]
  rw [List.getD_eq_getElem f PF.nan h2]
  obtain ⟨q, hq⟩ : ∃ q, f[n] = PF.fin q := by
    have := hf f[n] (List.getElem_mem h2)
    cases hc : f[n] <;> simp_all [PF.isFinite]
  rw [hq]
  show aggCell "mean" (List.replicate w (PF.fin q)) = PF.fin q
  unfold aggCell
  rw [if_neg (by decide)]
  exact nanmean_replicate_fin w hw q

lemma nanmedian_finite_odd (cell : List PF)
    (hf : ∀ x ∈ cell, x.isFinite = true) (hodd : cell.length % 2 = 1) :
    nanmedian cell = middleOfCell cell := by
  have hfil : cell.filter (fun x => !x.isNaN) = cell :=
    List.filter_eq_self.mpr
      (fun a ha => by have := hf a ha; cases a <;> simp_all [PF.isNaN, PF.isFinite])
  have hne : cell.isEmpty = false := by
    cases cell
    · simp at hodd
    · simp
  unfold nanmedian middleOfCell
  simp only [hfil, hne, Bool.false_eq_true, if_false, hodd, if_pos]

lemma aggField_median_getD (window : List (List PF)) (n j w : Nat)
    (hwin : window.length = w) (hw : 1 ≤ w) (hodd : w % 2 = 1)
    (hshape : ∀ g ∈ window, g.length = n)
    (hfin : ∀ g ∈ window, ∀ x ∈ g, x.isFinite = true) (hj : j < n) :
    (aggField "median" window).getD j PF.nan =
      middleOfCell (window.map (fun g => g.getD j PF.nan)) := by
  obtain ⟨g0, rest, rfl⟩ : ∃ g0 rest, window = g0 :: rest := by
    cases window
    · simp at hwin; omega
    · exact ⟨_, _, rfl⟩
  have hg0 : g0.length = n := hshape g0 (by simp)
  unfold aggField stackCells
  rw [List.map_map, List.getD_eq_getElem _ _ (by simp [hg0, hj])]
  simp only [List.getElem_map, List.getElem_range, Function.comp]
  show aggCell "median" ((g0 :: rest).map (fun a => a.getD j PF.nan)) = _
  unfold aggCell
  rw [if_pos rfl]
  apply nanmedian_finite_odd
  · intro x hx
    rw [List.mem_map] at hx
    obtain ⟨g, hg, rfl⟩ := hx
    have hl : j < g.length := by rw [hshape g hg]; exact hj
    rw [List.getD_eq_getElem g PF.nan hl]
    exact hfin g hg _ (List.getElem_mem hl)
  · rw [List.length_map]
    show (g0 :: rest).length % 2 = 1
    rw [hwin]
    exact hodd


/-- C7 counterexample.  For the odd window [[NaN], [0], [1]] the median
aggregation returns 1/2 in the single cell: np.nanmedian drops the NaN and
averages the two remaining values, and 1/2 is not even one of the three
values of the cell, let alone their middle value - refuting the claim for
windows that contain non-finite entries. -/
theorem c7_counterexample :
    aggField "median" [[PF.nan], [PF.fin 0], [PF.fin 1]] = [PF.fin (1 / 2)] ∧
    PF.fin (1 / 2) ∉ [PF.nan, PF.fin 0, PF.fin 1] := by
  constructor
  · norm_num [aggField, stackCells, aggCell, nanmedian, pfSort, pfInsertSorted, pfLe,
      pfAdd, pfDivNat, PF.isNaN, List.filter, List.range_succ, List.getD]
  · simp only [List.mem_cons, List.not_mem_nil, or_false]
    push_neg
    refine ⟨fun h => PF.noConfusion h, fun h => ?_, fun h => ?_⟩
    · injection h with h; norm_num at h
    · injection h with h; norm_num at h

/-- C7 amended.  Two independent conjuncts, each under exactly its own
hypotheses: for EVERY window size w of at least 1 (odd or even) and every
FINITE field f, mean aggregation over w identical copies of f returns f
unchanged; and for every ODD-sized window of equal-shaped FINITE fields,
median aggregation returns, in each cell independently, the middle value of
the values of that cell (the finiteness restriction on the median part is
forced by the counterexample: np.nanmedian drops NaNs before taking the
middle). -/
theorem c7_aggregation_amended (w n j : Nat) (f : List PF) (window : List (List PF)) :
    (1 ≤ w → (∀ x ∈ f, x.isFinite = true) →
      aggField "mean" (List.replicate w f) = f) ∧
    (window.length % 2 = 1 →
      (∀ g ∈ window, g.length = n) →
      (∀ g ∈ window, ∀ x ∈ g, x.isFinite = true) →
      j < n →
      (aggField "median" window).getD j PF.nan =
        middleOfCell (window.map (fun g => g.getD j PF.nan))) :=
  ⟨fun hw hf => aggField_mean_replicate w hw f hf,
   fun hodd hshape hfin hj =>
    aggField_median_getD window n j window.length rfl (by omega) hodd hshape hfin hj⟩

/-- C7 witness: the amended theorem applied with the EVEN window size 2 for
the mean part (two copies of the one-cell field [2]) and with the odd
three-element window stack [1], [5], [2] for the median part. -/
theorem c7_witness :
    aggField "mean" (List.replicate 2 [PF.fin 2]) = [PF.fin 2] ∧
    (aggField "median" [[PF.fin 1], [PF.fin 5], [PF.fin 2]]).getD 0 PF.nan =
      middleOfCell ([[PF.fin 1], [PF.fin 5], [PF.fin 2]].map (fun g => g.getD 0 PF.nan)) :=
  ⟨(c7_aggregation_amended 2 1 0 [PF.fin 2] [[PF.fin 1], [PF.fin 5], [PF.fin 2]]).1
      (by decide) (by decide),
   (c7_aggregation_amended 2 1 0 [PF.fin 2] [[PF.fin 1], [PF.fin 5], [PF.fin 2]]).2
      (by decide) (by decide) (by decide) (by decide)⟩

/-- C8 counterexample.  Aggregation with w = 1 is indeed a no-op on the
field [+inf], but the rendered magnitude of the cell (+inf, 0) is
MAXFLOAT (squared here), not zero: np.nan_to_num turns an infinite
magnitude into the largest finite float, refuting the claim that every
non-finite component renders as zero magnitude. -/
theorem c8_counterexample :
    aggField "mean" [[PF.inf]] = [PF.inf] ∧
    renderMagSqCell 1 PF.inf (PF.fin 0) = MAXFLOAT ^ 2 ∧ (MAXFLOAT : ℚ) ^ 2 ≠ 0 := by
  refine ⟨aggField_singleton "mean" [PF.inf], ?_, by norm_num [MAXFLOAT]⟩
  norm_num [renderMagSqCell, magSq, pfScale, nanToNumMagSq]

/-- C8 amended.  For window size w = 1 and every input field, including
fields with non-finite values, aggregation is a no-op under either method;
a cell whose scaled magnitude is NaN is rendered as zero magnitude, while a
cell whose scaled magnitude is infinite is rendered as MAXFLOAT (squared
representation), so no NaN propagates into the rendered image. -/
theorem c8_window_one_amended (method : String) (u : List PF) (factor : ℚ) (a b : PF) :
    aggField method [u] = u ∧
    (magSq (pfScale factor a) (pfScale factor b) = MagSq.nan →
      renderMagSqCell factor a b = 0) ∧
    (magSq (pfScale factor a) (pfScale factor b) = MagSq.inf →
      renderMagSqCell factor a b = MAXFLOAT ^ 2) := by
  refine ⟨aggField_singleton method u, fun h => ?_, fun h => ?_⟩
  · unfold renderMagSqCell
    rw [h]
    rfl
  · unfold renderMagSqCell
    rw [h]
    rfl

/-- C8 witness: the amended theorem applied to the field [NaN] with window
size 1 and to the cell (NaN, 0), whose rendered magnitude is zero. -/
theorem c8_witness :
    aggField "mean" [[PF.nan]] = [PF.nan] ∧
    renderMagSqCell 1 PF.nan (PF.fin 0) = 0 :=
  ⟨(c8_window_one_amended "mean" [PF.nan] 1 PF.nan (PF.fin 0)).1,
   (c8_window_one_amended "mean" [PF.nan] 1 PF.nan (PF.fin 0)).2.1 rfl⟩

lemma decCharsAux_unfold (fuel n : Nat) (acc : List Char) (hf : 1 ≤ fuel) :
    decCharsAux fuel n acc =
      if n < 10 then digitChar n :: acc
      else decCharsAux (fuel - 1) (n / 10) (digitChar (n % 10) :: acc) := by
  obtain ⟨f, rfl⟩ : ∃ f, fuel = f + 1 := ⟨fuel - 1, by omega⟩
  rfl

lemma decChars_lt_10 (n : Nat) (h : n < 10) : decChars n = [digitChar n] := by
  unfold decChars
  rw [decCharsAux_unfold (n + 1) n [] (by omega), if_pos h]

lemma decChars_two_digit (n : Nat) (h1 : 10 ≤ n) (h2 : n ≤ 99) :
    decChars n = [digitChar (n / 10), digitChar (n % 10)] := by
  unfold decChars
  rw [decCharsAux_unfold (n + 1) n [] (by omega), if_neg (by omega)]
  rw [decCharsAux_unfold (n + 1 - 1) (n / 10) _ (by omega), if_pos (by omega)]

lemma decChars_three_digit (n : Nat) (h1 : 100 ≤ n) (h2 : n ≤ 999) :
    decChars n = [digitChar (n / 100), digitChar (n / 10 % 10), digitChar (n % 10)] := by
  unfold decChars
  rw [decCharsAux_unfold (n + 1) n [] (by omega), if_neg (by omega)]
  rw [decCharsAux_unfold (n + 1 - 1) (n / 10) _ (by omega), if_neg (by omega)]
  rw [decCharsAux_unfold (n + 1 - 1 - 1) (n / 10 / 10) _ (by omega), if_pos (by omega)]
  norm_num [Nat.div_div_eq_div_mul]

lemma format03d_eq (n : Nat) (h : n ≤ 999) :
    format03d n = [digitChar (n / 100), digitChar (n / 10 % 10), digitChar (n % 10)] := by
  unfold format03d
  rcases Nat.lt_or_ge n 10 with h1 | h1
  · rw [decChars_lt_10 n h1]
    have e1 : n / 100 = 0 := by omega
    have e2 : n / 10 % 10 = 0 := by omega
    have e3 : n % 10 = n := by omega
    rw [e1, e2, e3]
    rfl
  · rcases Nat.lt_or_ge n 100 with h2 | h2
    · rw [decChars_two_digit n h1 (by omega)]
      have e1 : n / 100 = 0 := by omega
      have e2 : n / 10 % 10 = n / 10 := by omega
      rw [e1, e2]
      rfl
    · rw [decChars_three_digit n h2 h]
      rfl

lemma digitChar_toNat (a : Nat) (h : a ≤ 9) : (digitChar a).toNat = 48 + a := by
  interval_cases a <;> rfl

lemma pyStrLt_cons (a b : Char) (as bs : List Char) :
    pyStrLt (a :: as) (b :: bs) =
      if a.toNat < b.toNat then true
      else if b.toNat < a.toNat then false else pyStrLt as bs := rfl

lemma pyStrLt_cons_same (c : Char) (as bs : List Char) :
    pyStrLt (c :: as) (c :: bs) = pyStrLt as bs := by
  rw [pyStrLt_cons, if_neg (lt_irrefl _), if_neg (lt_irrefl _)]

lemma pyStrLt_self (l : List Char) : pyStrLt l l = false := by
  induction l with
  | nil => rfl
  | cons c cs ih => rw [pyStrLt_cons_same, ih]

lemma pyStrLt_digit_cons (a b : Nat) (ha : a ≤ 9) (hb : b ≤ 9) (as bs : List Char) :
    pyStrLt (digitChar a :: as) (digitChar b :: bs) =
      if a < b then true else if b < a then false else pyStrLt as bs := by
  rw [pyStrLt_cons, digitChar_toNat a ha, digitChar_toNat b hb]
  simp only [Nat.add_lt_add_iff_left]

/-- C5 amended.  The rendered filenames carry the base frame index
zero-padded to width 3, so lexicographic order of the filenames agrees with
numeric order of the base indices exactly as long as every index has at most
three digits (index at most 999); the fixed pad width makes the claim fail
beyond that. -/
theorem c5_filename_order_amended (n m : Nat) (hn : n ≤ 999) (hm : m ≤ 999) :
    pyStrLt (imgFilename n) (imgFilename m) = true ↔ n < m := by
  unfold imgFilename
  rw [format03d_eq n hn, format03d_eq m hm]
  show pyStrLt
      ('i' :: 'm' :: 'g' :: digitChar (n / 100) :: digitChar (n / 10 % 10) :: digitChar (n % 10)
        :: '.' :: 'p' :: 'n' :: 'g' :: [])
      ('i' :: 'm' :: 'g' :: digitChar (m / 100) :: digitChar (m / 10 % 10) :: digitChar (m % 10)
        :: '.' :: 'p' :: 'n' :: 'g' :: []) = true ↔ n < m
  rw [pyStrLt_cons_same, pyStrLt_cons_same, pyStrLt_cons_same]
  rw [pyStrLt_digit_cons _ _ (by omega) (by omega),
      pyStrLt_digit_cons _ _ (by omega) (by omega),
      pyStrLt_digit_cons _ _ (by omega) (by omega),
      pyStrLt_self]
  split_ifs <;> simp <;> omega

/-- C5 counterexample.  The claim asserts order preservation for ALL index
values: at the pair 999 and 1000 it fails, because with pad width 3 the
filename img1000.png sorts lexicographically BEFORE img999.png while
999 < 1000. -/
theorem c5_counterexample :
    (999 : Nat) < 1000 ∧ pyStrLt (imgFilename 999) (imgFilename 1000) = false ∧
    pyStrLt (imgFilename 1000) (imgFilename 999) = true :=
  ⟨by omega, by decide, by decide⟩

/-- C5 witness: the amended theorem applied at the indices 3 and 12. -/
theorem c5_witness : pyStrLt (imgFilename 3) (imgFilename 12) = true :=
  (c5_filename_order_amended 3 12 (by omega) (by omega)).mpr (by omega)

lemma pass1Pairs_length {F : Type} [Inhabited F] (s : Nat) (piv : F → F → List PF × List PF) :
    ∀ (rest buffer : List F) (idx : Nat),
      (pass1Pairs s piv buffer rest idx).length = rest.length + 1 := by
  intro rest
  induction rest with
  | nil => intro buffer idx; rfl
  | cons f rest ih => intro buffer idx; simp [pass1Pairs, ih]

lemma pass1Pairs_frame_index {F : Type} [Inhabited F] (s : Nat)
    (piv : F → F → List PF × List PF) :
    ∀ (rest buffer : List F) (idx i : Nat), i < rest.length + 1 →
      ((pass1Pairs s piv buffer rest idx).getD i fr0).frame_index = idx + i + 1 := by
  intro rest
  induction rest with
  | nil =>
    intro buffer idx i hi
    simp only [List.length_nil] at hi
    have h0 : i = 0 := by omega
    subst h0
    rfl
  | cons f rest ih =>
    intro buffer idx i hi
    cases i with
    | zero => rfl
    | succ i =>
      show ((pass1Pairs s piv (buffer.drop 1 ++ [f]) rest (idx + 1)).getD i fr0).frame_index = _
      rw [ih _ (idx + 1) i (by simpa using hi)]
      omega

/-- C3.  For every stride s at least 1 and every video yielding K decodable
frames, analyze_and_save_frames analyzes exactly K - s frame pairs when
K exceeds s and exactly 0 pairs otherwise (the insufficient-data path), and
the i-th analyzed pair (0-based i here) is recorded under the 1-based index
i + 1. -/
theorem c3_pair_count_and_indices {F : Type} [Inhabited F] (frames : List F)
    (s w : Nat) (method : String) (factor : ℚ) (vmaxOv : Option ℚ)
    (piv : F → F → List PF × List PF) (hs : 1 ≤ s) :
    ((analyzeModel true frames s w method factor vmaxOv piv).pairs.length =
      if s < frames.length then frames.length - s else 0) ∧
    ∀ i, i < (analyzeModel true frames s w method factor vmaxOv piv).pairs.length →
      ((analyzeModel true frames s w method factor vmaxOv piv).pairs.getD i fr0).frame_index =
        i + 1 := by
  unfold analyzeModel
  rw [if_pos rfl]
  by_cases hK : frames.length ≤ s
  · have hbuf : (frames.take (s + 1)).length ≤ s := by
      rw [List.length_take]; omega
    rw [if_pos hbuf]
    constructor
    · rw [if_neg (by omega)]; rfl
    · intro i hi; simp at hi
  · have hbuf : ¬ (frames.take (s + 1)).length ≤ s := by
      rw [List.length_take]; omega
    rw [if_neg hbuf]
    have hlen : (pass1Pairs s piv (frames.take (s + 1)) (frames.drop (s + 1)) 0).length
        = (frames.drop (s + 1)).length + 1 := pass1Pairs_length s piv _ _ 0
    have hne : (pass1Pairs s piv (frames.take (s + 1)) (frames.drop (s + 1)) 0).isEmpty = false := by
      rcases hp : pass1Pairs s piv (frames.take (s + 1)) (frames.drop (s + 1)) 0 with _ | ⟨a, b⟩
      · rw [hp] at hlen; simp at hlen
      · rfl
    simp only [hne, Bool.false_eq_true, if_false]
    constructor
    · show (pass1Pairs s piv (frames.take (s + 1)) (frames.drop (s + 1)) 0).length = _
      rw [hlen, List.length_drop, if_pos (by omega)]
      omega
    · intro i hi
      show ((pass1Pairs s piv (frames.take (s + 1)) (frames.drop (s + 1)) 0).getD i fr0).frame_index = _
      have hi2 : i < (frames.drop (s + 1)).length + 1 := by
        rw [← hlen]; exact hi
      rw [pass1Pairs_frame_index s piv _ _ 0 i hi2]
      omega

/-- C3 witness: three frames at stride 1 give two pairs with the second pair
recorded under index 2. -/
theorem c3_witness :
    (analyzeModel (F := Nat) true [10, 20, 30] 1 1 "mean" 1 none
      (fun a b => ([PF.fin a], [PF.fin b]))).pairs.length = 2 ∧
    ((analyzeModel (F := Nat) true [10, 20, 30] 1 1 "mean" 1 none
      (fun a b => ([PF.fin a], [PF.fin b]))).pairs.getD 1 fr0).frame_index = 2 := by
  have h := c3_pair_count_and_indices (F := Nat) [10, 20, 30] 1 1 "mean" 1 none
    (fun a b => ([PF.fin a], [PF.fin b])) (by omega)
  refine ⟨h.1.trans (by norm_num), h.2 1 (by rw [h.1]; norm_num)⟩


/-- C4.  For every window size w at least 1 and every list of N pass-1
results, pass 2 produces exactly N + 1 - w output images (natural
subtraction, which equals max(N - w + 1, 0)), and the base frame index that
labels and names window i equals the recorded frame_index of the (i+1)-th
pair; the filename is the imgFilename of that index. -/
theorem c4_pass2_window_count_and_base {F : Type} [Inhabited F] (factor : ℚ) (w : Nat)
    (method : String) (pairs : List (FrameResult F)) (hw : 1 ≤ w) :
    (pass2 factor w method pairs).length = pairs.length + 1 - w ∧
    ∀ i, i < (pass2 factor w method pairs).length →
      ((pass2 factor w method pairs).getD i im0).frameNum = (pairs.getD i fr0).frame_index ∧
      ((pass2 factor w method pairs).getD i im0).filename =
        imgFilename ((pairs.getD i fr0).frame_index) := by
  have hlen : (pass2 factor w method pairs).length = pairs.length + 1 - w := by
    unfold pass2
    rw [List.length_map, List.length_range]
    omega
  refine ⟨hlen, ?_⟩
  intro i hi
  rw [hlen] at hi
  have hiN : i < pairs.length := by omega
  have hilt : i < (List.range ((pairs.length : Int) - (w : Int) + 1).toNat).length := by
    rw [List.length_range]; omega
  have hbase : ((pairs.drop i).take w).headD fr0 = pairs.getD i fr0 := by
    obtain ⟨v, rfl⟩ : ∃ v, w = v + 1 := ⟨w - 1, by omega⟩
    rw [List.drop_eq_getElem_cons hiN, List.take_succ_cons, List.headD_cons,
      List.getD_eq_getElem pairs fr0 hiN]
  unfold pass2
  constructor
  · rw [List.getD_eq_getElem _ _ (by rw [List.length_map]; exact hilt)]
    simp only [List.getElem_map, List.getElem_range]
    show (((pairs.drop i).take w).headD fr0).frame_index = _
    rw [hbase]
  · rw [List.getD_eq_getElem _ _ (by rw [List.length_map]; exact hilt)]
    simp only [List.getElem_map, List.getElem_range]
    show imgFilename ((((pairs.drop i).take w).headD fr0).frame_index) = _
    rw [hbase]

/-- C4 witness: two pass-1 results with window size 1 give two images, the
second labelled with the second recorded index 2. -/
theorem c4_witness :
    (pass2 (F := Nat) 1 1 "mean" [⟨[PF.fin 1], [PF.fin 0], 0, 1⟩, ⟨[PF.fin 2], [PF.fin 0], 0, 2⟩]).length = 2 ∧
    ((pass2 (F := Nat) 1 1 "mean" [⟨[PF.fin 1], [PF.fin 0], 0, 1⟩, ⟨[PF.fin 2], [PF.fin 0], 0, 2⟩]).getD 1 im0).frameNum = 2 := by
  have h := c4_pass2_window_count_and_base (F := Nat) 1 1 "mean"
    [⟨[PF.fin 1], [PF.fin 0], 0, 1⟩, ⟨[PF.fin 2], [PF.fin 0], 0, 2⟩] (by omega)
  exact ⟨h.1.trans (by norm_num), ((h.2 1 (by rw [h.1]; norm_num)).1).trans (by norm_num)⟩

lemma pass1MaxSq_take_mono (factor : ℚ) (l : List (List PF × List PF)) (k : Nat) :
    pass1MaxSq factor (l.take k) ≤ pass1MaxSq factor (l.take (k + 1)) := by
  rcases Nat.lt_or_ge k l.length with hk | hk
  · unfold pass1MaxSq
    rw [List.take_succ, List.getElem?_eq_getElem hk]
    simp only [Option.toList_some, List.foldl_append, List.foldl_cons, List.foldl_nil]
    split_ifs with h
    · exact le_of_lt h
    · exact le_refl _
  · rw [List.take_of_length_le (by omega), List.take_of_length_le (by omega)]

lemma pass1MaxSq_eq_foldl_max (factor : ℚ) (l : List (List PF × List PF)) :
    pass1MaxSq factor l = (l.map (fun f => pairMaxMagSq factor f.1 f.2)).foldl max 0 := by
  unfold pass1MaxSq
  rw [List.foldl_map]
  have hstep : (fun (acc : ℚ) (f : List PF × List PF) =>
      let cm := pairMaxMagSq factor f.1 f.2
      if acc < cm then cm else acc) =
      fun (acc : ℚ) (f : List PF × List PF) => max acc (pairMaxMagSq factor f.1 f.2) := by
    funext acc f
    show (if acc < pairMaxMagSq factor f.1 f.2 then pairMaxMagSq factor f.1 f.2 else acc) = _
    split_ifs with h
    · exact (max_eq_right h.le).symm
    · exact (max_eq_left (not_lt.mp h)).symm
  rw [hstep]

lemma magSq_ne_inf (a b : PF) (ha : a ≠ PF.inf ∧ a ≠ PF.ninf)
    (hb : b ≠ PF.inf ∧ b ≠ PF.ninf) : magSq a b ≠ MagSq.inf := by
  cases a <;> cases b <;> simp_all [magSq]

lemma pfScale_ne_inf (factor : ℚ) (hf : factor ≠ 0) (a : PF)
    (ha : a ≠ PF.inf ∧ a ≠ PF.ninf) :
    pfScale factor a ≠ PF.inf ∧ pfScale factor a ≠ PF.ninf := by
  cases a <;> simp_all [pfScale]

lemma renderMagSqCell_eq_spec (factor : ℚ) (hf : factor ≠ 0) (a b : PF)
    (ha : a ≠ PF.inf ∧ a ≠ PF.ninf) (hb : b ≠ PF.inf ∧ b ≠ PF.ninf) :
    renderMagSqCell factor a b =
      match magSq (pfScale factor a) (pfScale factor b) with
      | MagSq.fin q => q
      | _ => 0 := by
  unfold renderMagSqCell
  have hne := magSq_ne_inf (pfScale factor a) (pfScale factor b)
    (pfScale_ne_inf factor hf a ha) (pfScale_ne_inf factor hf b hb)
  cases hm : magSq (pfScale factor a) (pfScale factor b) with
  | fin q => rfl
  | nan => rfl
  | inf => exact absurd hm hne

lemma pairMaxMagSq_eq_spec (factor : ℚ) (hf : factor ≠ 0) (u v : List PF)
    (h : ∀ x ∈ u ++ v, x ≠ PF.inf ∧ x ≠ PF.ninf) :
    pairMaxMagSq factor u v = specPairMaxSq factor u v := by
  unfold pairMaxMagSq specPairMaxSq
  congr 1
  induction u generalizing v with
  | nil => rfl
  | cons a u ih =>
    cases v with
    | nil => rfl
    | cons b v =>
      simp only [List.zipWith_cons_cons]
      congr 1
      · exact renderMagSqCell_eq_spec factor hf a b
          (h a (by simp)) (h b (by simp))
      · exact ih v (fun x hx => h x (by
          simp only [List.mem_append, List.mem_cons] at hx ⊢
          tauto))

/-- C2 amended.  Pass 1 of analyze_and_save_frames: the running value
overall_max_mag (squared representation) is monotonically non-decreasing as
pairs are processed; the pipeline value equals pass1MaxSq over the collected
pair fields; that value equals the maximum over all pairs of the per-pair
np.nanmax (np.nan_to_num magnitude) value; and when the scaling factor is
nonzero and no field component is infinite it equals the value the claim
describes, with every non-finite (then necessarily NaN) magnitude treated as
zero.  Infinite magnitudes instead contribute MAXFLOAT (squared), which is
what forces the amendment. -/
theorem c2_pass1_max_amended {F : Type} [Inhabited F] (opened : Bool) (frames : List F)
    (s w : Nat) (method : String) (factor : ℚ) (vmaxOv : Option ℚ)
    (piv : F → F → List PF × List PF) (k : Nat)
    (l : List (List PF × List PF)) :
    pass1MaxSq factor (l.take k) ≤ pass1MaxSq factor (l.take (k + 1)) ∧
    (analyzeModel opened frames s w method factor vmaxOv piv).overallMaxMagSq =
      pass1MaxSq factor
        ((analyzeModel opened frames s w method factor vmaxOv piv).pairs.map
          fun p => (p.u, p.v)) ∧
    pass1MaxSq factor l = (l.map (fun f => pairMaxMagSq factor f.1 f.2)).foldl max 0 ∧
    (factor ≠ 0 → (∀ f ∈ l, ∀ x ∈ f.1 ++ f.2, x ≠ PF.inf ∧ x ≠ PF.ninf) →
      pass1MaxSq factor l = specOverallMaxSq factor l) := by
  refine ⟨pass1MaxSq_take_mono factor l k, ?_, pass1MaxSq_eq_foldl_max factor l, ?_⟩
  · unfold analyzeModel
    by_cases ho : opened = true
    · rw [if_pos ho]
      by_cases hb : (frames.take (s + 1)).length ≤ s
      · rw [if_pos hb]; rfl
      · rw [if_neg hb]
        by_cases hp :
          (pass1Pairs s piv (frames.take (s + 1)) (frames.drop (s + 1)) 0).isEmpty = true
        · rw [if_pos hp]
        · rw [if_neg hp]
    · rw [if_neg ho]; rfl
  · intro hf hni
    rw [pass1MaxSq_eq_foldl_max factor l]
    unfold specOverallMaxSq
    congr 1
    apply List.map_congr_left
    intro f hfmem
    exact pairMaxMagSq_eq_spec factor hf f.1 f.2 (hni f hfmem)

/-- C2 counterexample.  A single pair whose filtered field holds the one
cell (+inf, 0) with scaling factor 1: the code tracks MAXFLOAT squared
(np.nan_to_num turns the infinite magnitude into the largest finite float)
while the claim requires the non-finite magnitude to be treated as zero,
giving 0.  The third conjunct checks that the collected pair fields are
exactly that one field. -/
theorem c2_counterexample :
    (analyzeModel (F := Nat) true [0, 1] 1 1 "mean" 1 none
      (fun _ _ => ([PF.inf], [PF.fin 0]))).overallMaxMagSq = MAXFLOAT ^ 2 ∧
    specOverallMaxSq 1 [([PF.inf], [PF.fin 0])] = 0 ∧
    ((analyzeModel (F := Nat) true [0, 1] 1 1 "mean" 1 none
      (fun _ _ => ([PF.inf], [PF.fin 0]))).pairs.map fun p => (p.u, p.v)) =
      [([PF.inf], [PF.fin 0])] ∧
    (MAXFLOAT : ℚ) ^ 2 ≠ 0 := by
  refine ⟨?_, ?_, rfl, by norm_num [MAXFLOAT]⟩
  · norm_num [analyzeModel, pass1Pairs, pass1MaxSq, pairMaxMagSq, renderMagSqCell,
      magSq, pfScale, nanToNumMagSq, List.zipWith, MAXFLOAT, max_def]
  · norm_num [specOverallMaxSq, specPairMaxSq, magSq, pfScale, List.zipWith]

/-- C2 witness: the amended theorem applied to one pair with the finite
field cell (3, 4), where the tracked value, the foldl-max form and the
spec value all agree. -/
theorem c2_witness :
    pass1MaxSq 1 (([([PF.fin 3], [PF.fin 4])] : List (List PF × List PF)).take 0) ≤
      pass1MaxSq 1 ([([PF.fin 3], [PF.fin 4])].take 1) ∧
    pass1MaxSq 1 [([PF.fin 3], [PF.fin 4])] = specOverallMaxSq 1 [([PF.fin 3], [PF.fin 4])] := by
  have h := c2_pass1_max_amended (F := Nat) true [0, 1] 1 1 "mean" 1 none
    (fun _ _ => ([PF.fin 3], [PF.fin 4])) 0 [([PF.fin 3], [PF.fin 4])]
  refine ⟨h.1, h.2.2.2 (by norm_num) ?_⟩
  intro f hf x hx
  simp only [List.mem_singleton] at hf
  subst hf
  simp only [List.mem_append, List.mem_singleton] at hx
  rcases hx with hx | hx <;> subst hx <;> exact ⟨fun h => PF.noConfusion h, fun h => PF.noConfusion h⟩

/-- C6 counterexample.  One decodable frame with stride 1: the function
produces zero pairs and zero images and prints the not-enough-frames error,
but it returns normally - the script run terminates with exit status 0, so
nothing fatal is reported to the caller, refuting the
fatal-configuration-error part of the claim. -/
theorem c6_counterexample :
    (pivScriptRun (F := Nat) true [7] 1 1 "mean" 1 none
      (fun _ _ => ([PF.fin 0], [PF.fin 0]))).2 = 0 ∧
    (pivScriptRun (F := Nat) true [7] 1 1 "mean" 1 none
      (fun _ _ => ([PF.fin 0], [PF.fin 0]))).1.pairs = [] ∧
    (pivScriptRun (F := Nat) true [7] 1 1 "mean" 1 none
      (fun _ _ => ([PF.fin 0], [PF.fin 0]))).1.images = [] ∧
    (pivScriptRun (F := Nat) true [7] 1 1 "mean" 1 none
      (fun _ _ => ([PF.fin 0], [PF.fin 0]))).1.printed = [Msg.notEnoughFrames] := by
  refine ⟨rfl, ?_, ?_, ?_⟩ <;> rfl

/-- C6 amended.  When the opened stream yields fewer than s + 1 frames,
analyze_and_save_frames produces zero pairs and zero images, prints the
not-enough-frames error message (so the outcome is not silent), releases
the capture, and returns normally: the process exit status of the script
run is 0, a reported nothing-to-do outcome rather than a fatal
configuration error visible to the caller. -/
theorem c6_insufficient_frames_amended {F : Type} [Inhabited F] (frames : List F)
    (s w : Nat) (method : String) (factor : ℚ) (vmaxOv : Option ℚ)
    (piv : F → F → List PF × List PF) (hK : frames.length ≤ s) :
    (analyzeModel true frames s w method factor vmaxOv piv).pairs = [] ∧
    (analyzeModel true frames s w method factor vmaxOv piv).images = [] ∧
    (analyzeModel true frames s w method factor vmaxOv piv).printed =
      [Msg.notEnoughFrames] ∧
    (analyzeModel true frames s w method factor vmaxOv piv).capReleased = true ∧
    (pivScriptRun true frames s w method factor vmaxOv piv).2 = 0 := by
  have hbuf : (frames.take (s + 1)).length ≤ s := by
    rw [List.length_take]; omega
  unfold pivScriptRun analyzeModel
  rw [if_pos rfl, if_pos hbuf]
  exact ⟨rfl, rfl, rfl, rfl, rfl⟩

/-- C6 witness: the amended theorem applied to a single-frame stream with
stride 1. -/
theorem c6_witness :
    (analyzeModel (F := Nat) true [7] 1 1 "mean" 1 none
      (fun _ _ => ([PF.fin 1], [PF.fin 2]))).pairs = [] ∧
    (analyzeModel (F := Nat) true [7] 1 1 "mean" 1 none
      (fun _ _ => ([PF.fin 1], [PF.fin 2]))).images = [] := by
  have h := c6_insufficient_frames_amended (F := Nat) [7] 1 1 "mean" 1 none
    (fun _ _ => ([PF.fin 1], [PF.fin 2])) (by norm_num)
  exact ⟨h.1, h.2.1⟩


lemma writeLoop_eq {Img : Type} (decode : List Char → Option Img) (l : List (List Char)) :
    writeLoop decode l = (l.filterMap decode, l.countP (fun f => (decode f).isNone)) := by
  induction l with
  | nil => rfl
  | cons f fs ih =>
    unfold writeLoop
    rw [ih]
    cases hd : decode f <;> simp [List.filterMap_cons, hd, List.countP_cons]

lemma createVideoModel_pos {Img : Type} (matched : List (List Char))
    (decode : List Char → Option Img) (f0 : List Char) (rest : List (List Char)) (img : Img)
    (hsort : pySort matched = f0 :: rest) (hdec : decode f0 = some img) :
    createVideoModel matched decode =
      ⟨(pySort matched).filterMap decode, true,
        (pySort matched).countP (fun f => (decode f).isNone), none, true⟩ := by
  unfold createVideoModel
  rw [hsort]
  simp only [hdec]
  rw [writeLoop_eq]

lemma analyzeModel_capReleased {F : Type} [Inhabited F] (frames : List F) (s w : Nat)
    (method : String) (factor : ℚ) (vmaxOv : Option ℚ)
    (piv : F → F → List PF × List PF) :
    (analyzeModel true frames s w method factor vmaxOv piv).capReleased = true := by
  unfold analyzeModel
  rw [if_pos rfl]
  by_cases hb : (frames.take (s + 1)).length ≤ s
  · rw [if_pos hb]
  · rw [if_neg hb]
    by_cases hp :
      (pass1Pairs s piv (frames.take (s + 1)) (frames.drop (s + 1)) 0).isEmpty = true
    · rw [if_pos hp]
    · rw [if_neg hp]

/-- C9.  create_video_from_images: with zero matching files no writer (and so
no video file) is created and the no-match condition is reported; with at
least one match whose lexicographically first file is readable, exactly one
video frame is written per decodable matched image, in sorted order, the
per-item decode failures are counted as warnings without aborting the batch,
and the writer is released. -/
theorem c9_create_video {Img : Type} (matched : List (List Char))
    (decode : List Char → Option Img) :
    (matched = [] →
      (createVideoModel matched decode).created = false ∧
      (createVideoModel matched decode).written = [] ∧
      (createVideoModel matched decode).errMsg = some Msg.noMatchingImages) ∧
    (∀ f0 rest img, pySort matched = f0 :: rest → decode f0 = some img →
      (createVideoModel matched decode).written = (pySort matched).filterMap decode ∧
      (createVideoModel matched decode).created = true ∧
      (createVideoModel matched decode).released = true ∧
      (createVideoModel matched decode).warnings =
        (pySort matched).countP (fun f => (decode f).isNone)) := by
  constructor
  · intro h
    subst h
    exact ⟨rfl, rfl, rfl⟩
  · intro f0 rest img hsort hdec
    rw [createVideoModel_pos matched decode f0 rest img hsort hdec]
    exact ⟨rfl, rfl, rfl, rfl⟩

/-- C9 witness: three matched files of which the lexicographically last is
unreadable; the two readable ones are written in sorted order and one
warning is counted. -/
theorem c9_witness :
    (createVideoModel [String.toList "imgB", String.toList "imgA", String.toList "imgC"]
      (fun f => if f = String.toList "imgC" then none else some (1 : Nat))).written = [1, 1] ∧
    (createVideoModel [String.toList "imgB", String.toList "imgA", String.toList "imgC"]
      (fun f => if f = String.toList "imgC" then none else some (1 : Nat))).created = true ∧
    (createVideoModel [String.toList "imgB", String.toList "imgA", String.toList "imgC"]
      (fun f => if f = String.toList "imgC" then none else some (1 : Nat))).warnings = 1 := by
  have h := (c9_create_video [String.toList "imgB", String.toList "imgA", String.toList "imgC"]
    (fun f => if f = String.toList "imgC" then none else some (1 : Nat))).2
    (String.toList "imgA") [String.toList "imgB", String.toList "imgC"] 1
    (by decide) (by decide)
  exact ⟨h.1.trans (by decide), h.2.1, h.2.2.2.trans (by decide)⟩

/-- C10.  The video-decoding handle is released on the early
insufficient-frames exit path and on the normal-completion path (both
conjuncts below follow from the released flag holding for every opened run),
and the video-encoding handle is released after all frames are written. -/
theorem c10_resource_release {F : Type} [Inhabited F] {Img : Type} (frames : List F)
    (s w : Nat) (method : String) (factor : ℚ) (vmaxOv : Option ℚ)
    (piv : F → F → List PF × List PF) (matched : List (List Char))
    (decode : List Char → Option Img) (f0 : List Char) (rest : List (List Char)) (img : Img)
    (hsort : pySort matched = f0 :: rest) (hdec : decode f0 = some img) :
    (frames.length ≤ s →
      (analyzeModel true frames s w method factor vmaxOv piv).capReleased = true) ∧
    (s < frames.length →
      (analyzeModel true frames s w method factor vmaxOv piv).capReleased = true) ∧
    (createVideoModel matched decode).released = true := by
  refine ⟨fun _ => analyzeModel_capReleased frames s w method factor vmaxOv piv,
    fun _ => analyzeModel_capReleased frames s w method factor vmaxOv piv, ?_⟩
  rw [createVideoModel_pos matched decode f0 rest img hsort hdec]

/-- C10 witness: a one-frame insufficient run and a three-frame normal run
both release the capture, and the one-file video run releases the writer. -/
theorem c10_witness :
    (analyzeModel (F := Nat) true [7] 1 1 "mean" 1 none
      (fun _ _ => ([PF.fin 1], [PF.fin 2]))).capReleased = true ∧
    (analyzeModel (F := Nat) true [7, 8, 9] 1 1 "mean" 1 none
      (fun _ _ => ([PF.fin 1], [PF.fin 2]))).capReleased = true ∧
    (createVideoModel [String.toList "imgA"] (fun _ => some (1 : Nat))).released = true := by
  have h1 := c10_resource_release (F := Nat) [7] 1 1 "mean" 1 none
    (fun _ _ => ([PF.fin 1], [PF.fin 2])) [String.toList "imgA"] (fun _ => some 1)
    (String.toList "imgA") [] 1 (by decide) rfl
  have h2 := c10_resource_release (F := Nat) [7, 8, 9] 1 1 "mean" 1 none
    (fun _ _ => ([PF.fin 1], [PF.fin 2])) [String.toList "imgA"] (fun _ => some 1)
    (String.toList "imgA") [] 1 (by decide) rfl
  exact ⟨h1.1 (by norm_num), h2.2.1 (by norm_num), h1.2.2⟩

end MechViz
